import Mathlib

/-!
Verification development for `src/python/verify/verifyHyperbolicity.py`.

The Python module has two functions:

* `verify_logarithmic_gluing_equations_and_positively_oriented_tets
   (manifold, shape_intervals, verbose)` — checks that every shape interval
  has strictly positive imaginary part, then checks the logarithmic gluing
  equations (edge equations against `2*pi*i`, cusp equations against `0` or
  `2*pi*i` depending on the completeness flag) with absolute tolerance `0.1`.
* `verify_hyperbolicity (manifold, verbose, bits_prec)` — obtains certified
  shape intervals from the external solver (or catches its failure) and
  delegates to the first function.

Modelling conventions of the shallow embedding:

* A sage `ComplexIntervalField` element is modelled by `Box`, a rectangle
  with rational endpoints.  Sage interval comparisons are "certainly" true
  comparisons: `x.imag() > 0` holds iff the lower endpoint of the imaginary
  part is positive, and `abs(w) < 0.1` holds iff the largest possible
  magnitude of a point of `w` is below `1/10`.  To stay inside exact rational
  arithmetic the magnitude test is expressed on squares:
  `max |w| < 1/10  ↔  max |w|^2 < 1/100`, which is `Box.near` below.
* The complex logarithm and `pi` are transcendental primitives of the
  external numeric library; the embedding takes them as parameters
  (`lg : Box → Box` for `z.log()` and `piB : Box` for `BaseField.pi()`).
  `BaseField(2j)` is the exact box `Box.twoI`, and `TWO_PI_I` is computed
  from them by box multiplication, exactly as the source does.
* The SnapPy manifold object is read through three accessors only:
  `num_tetrahedra()`, `cusp_info(i)['complete?']` and `gluing_equations()`;
  it is modelled by the `Manifold` structure holding exactly those data.
* Python exceptions (the `IndexError` from `shape_intervals[0]` on an empty
  list and from `LHSs[LHS_index]` past the end, and the failure of
  `manifold.tetrahedra_shapes`) are modelled with `Option`/`none`.
* `print` calls guarded by `verbose` are modelled by a returned list of
  `Diag` events, so that the advisory channel is explicit and provably
  separate from the boolean result.
-/

/-- Model of one sage complex interval: a closed rectangle
`[reLo, reHi] + [imLo, imHi]*i` with rational endpoints. -/
structure Box where
  reLo : ℚ
  reHi : ℚ
  imLo : ℚ
  imHi : ℚ
deriving DecidableEq, Repr

/-- The box holding exactly `0`. -/
def Box.zero : Box := ⟨0, 0, 0, 0⟩

/-- The box holding exactly `1` (the Python integer `1` coerced into the field). -/
def Box.one : Box := ⟨1, 1, 0, 0⟩

/-- The box holding exactly `2i`, the model of `BaseField(2j)`. -/
def Box.twoI : Box := ⟨0, 0, 2, 2⟩

/-- Exact embedding of an integer coefficient into the field. -/
def Box.ofInt (n : ℤ) : Box := ⟨n, n, 0, 0⟩

/-- Box addition (componentwise interval addition). -/
def Box.add (x y : Box) : Box :=
  ⟨x.reLo + y.reLo, x.reHi + y.reHi, x.imLo + y.imLo, x.imHi + y.imHi⟩

/-- Box subtraction (componentwise interval subtraction). -/
def Box.sub (x y : Box) : Box :=
  ⟨x.reLo - y.reHi, x.reHi - y.reLo, x.imLo - y.imHi, x.imHi - y.imLo⟩

/-- Lower endpoint of the product of the real intervals `[al, ah]` and `[bl, bh]`. -/
def iMulLo (al ah bl bh : ℚ) : ℚ :=
  min (min (al * bl) (al * bh)) (min (ah * bl) (ah * bh))

/-- Upper endpoint of the product of the real intervals `[al, ah]` and `[bl, bh]`. -/
def iMulHi (al ah bl bh : ℚ) : ℚ :=
  max (max (al * bl) (al * bh)) (max (ah * bl) (ah * bh))

/-- Box multiplication: `(a + b*i) * (c + d*i) = (ac - bd) + (ad + bc)*i`
with each product computed by real interval multiplication. -/
def Box.mul (x y : Box) : Box :=
  ⟨iMulLo x.reLo x.reHi y.reLo y.reHi - iMulHi x.imLo x.imHi y.imLo y.imHi,
   iMulHi x.reLo x.reHi y.reLo y.reHi - iMulLo x.imLo x.imHi y.imLo y.imHi,
   iMulLo x.reLo x.reHi y.imLo y.imHi + iMulLo x.imLo x.imHi y.reLo y.reHi,
   iMulHi x.reLo x.reHi y.imLo y.imHi + iMulHi x.imLo x.imHi y.reLo y.reHi⟩

/-- Lower endpoint of the square of the real interval `[l, h]`. -/
def iSqLo (l h : ℚ) : ℚ := if l ≤ 0 ∧ 0 ≤ h then 0 else min (l * l) (h * h)

/-- Upper endpoint of the square of the real interval `[l, h]`. -/
def iSqHi (l h : ℚ) : ℚ := max (l * l) (h * h)

/-- Complex conjugate of a box. -/
def Box.conj (x : Box) : Box := ⟨x.reLo, x.reHi, -x.imHi, -x.imLo⟩

/-- Lower endpoint of the interval enclosing `|x|^2`. -/
def Box.normSqLo (x : Box) : ℚ := iSqLo x.reLo x.reHi + iSqLo x.imLo x.imHi

/-- Upper endpoint of the interval enclosing `|x|^2`. -/
def Box.normSqHi (x : Box) : ℚ := iSqHi x.reLo x.reHi + iSqHi x.imLo x.imHi

/-- Box reciprocal via `conj x / |x|^2`.  When the enclosure of `|x|^2`
reaches `0` the true operation raises in the library; the verifier only ever
divides by boxes bounded away from `0`, and this total model returns the zero
scaling factor in the unreachable case. -/
def Box.inv (x : Box) : Box :=
  let sLo : ℚ := if 0 < x.normSqLo then 1 / x.normSqHi else 0
  let sHi : ℚ := if 0 < x.normSqLo then 1 / x.normSqLo else 0
  ⟨iMulLo sLo sHi x.conj.reLo x.conj.reHi,
   iMulHi sLo sHi x.conj.reLo x.conj.reHi,
   iMulLo sLo sHi x.conj.imLo x.conj.imHi,
   iMulHi sLo sHi x.conj.imLo x.conj.imHi⟩

/-- Box division `x / y = x * (1 / y)`. -/
def Box.div (x y : Box) : Box := Box.mul x (Box.inv y)

/-- Model of the sage test `shape.imag() > 0`: an interval is certainly
positive iff its lower endpoint is positive. -/
def Box.imagPos (x : Box) : Bool := decide (0 < x.imLo)

/-- Largest value of `|p|^2` over the points `p` of the box (attained at a
corner maximizing each coordinate magnitude). -/
def Box.absSqMax (x : Box) : ℚ :=
  max (x.reLo * x.reLo) (x.reHi * x.reHi) + max (x.imLo * x.imLo) (x.imHi * x.imHi)

/-- Model of the sage test `abs(x - target) < 0.1`: the comparison of the
interval `abs(x - target)` against the scalar `0.1` holds iff the upper
endpoint is below `1/10`, i.e. iff the worst-case squared magnitude of the
difference box is below `1/100`. -/
def Box.near (x target : Box) : Bool :=
  decide (Box.absSqMax (Box.sub x target) < 1 / 100)

/-- Membership of the exact point `a + b*i` in a box. -/
def inBox (x : Box) (a b : ℚ) : Prop :=
  x.reLo ≤ a ∧ a ≤ x.reHi ∧ x.imLo ≤ b ∧ b ≤ x.imHi

/-- A box with ordered endpoints (every interval produced by interval
arithmetic on ordered inputs is of this form). -/
def Box.valid (x : Box) : Prop := x.reLo ≤ x.reHi ∧ x.imLo ≤ x.imHi

/-- Diagnostic events of the verbose channel, one per `print` in the source. -/
inductive Diag where
  | shapeNonPos : Diag
  | edgeFailed : ℕ → Diag
  | cuspFailed : ℕ → ℕ → Diag
  | noCertified : Diag
deriving DecidableEq, Repr

/-- The data the verifier reads from a SnapPy manifold object:
`num_tetrahedra()`, the per-cusp flags `cusp_info(i)['complete?']`, and the
integer matrix `gluing_equations()`. -/
structure Manifold where
  num_tetrahedra : ℕ
  cusp_complete : List Bool
  gluing_equations : List (List ℤ)
deriving Repr

/-- Model of `manifold.num_cusps()`. -/
def Manifold.num_cusps (m : Manifold) : ℕ := m.cusp_complete.length

/-- Interleaving of three lists, modelling
`[z for triple in zip(logZ, logZp, logZpp) for z in triple]`. -/
def interleave3 : List Box → List Box → List Box → List Box
  | a :: as, b :: bs, c :: cs => a :: b :: c :: interleave3 as bs cs
  | _, _, _ => []

/-- The flat logarithm list
`log(z_0) log(z'_0) log(z''_0) log(z_1) ...` built from the three per-shape
logarithm lists `logZ`, `logZp`, `logZpp` of the source, where
`z' = 1/(1-z)` and `z'' = (z-1)/z`. -/
def logsOf (lg : Box → Box) (shape_intervals : List Box) : List Box :=
  interleave3
    (shape_intervals.map (fun z => lg z))
    (shape_intervals.map (fun z => lg (Box.div Box.one (Box.sub Box.one z))))
    (shape_intervals.map (fun z => lg (Box.div (Box.sub z Box.one) z)))

/-- LHS of one gluing equation:
`sum([l * expo for l, expo in zip(equation, logs)])`, with Python `sum`
starting from `0` and `zip` truncating at the shorter list. -/
def lhs (equation : List ℤ) (logs : List Box) : Box :=
  (List.zipWith (fun l expo => Box.mul (Box.ofInt l) expo) equation logs).foldl
    Box.add Box.zero

/-- The list `LHSs` of the source: one interval LHS per gluing equation. -/
def LHSsOf (m : Manifold) (shape_intervals : List Box) (lg : Box → Box) : List Box :=
  m.gluing_equations.map (fun equation => lhs equation (logsOf lg shape_intervals))

/-- `TWO_PI_I = BaseField.pi() * BaseField(2j)` for a given enclosure `piB`
of `pi`. -/
def twoPiIOf (piB : Box) : Box := Box.mul piB Box.twoI

/-- The edge-equation loop: starting at equation index `edge_index`, check
`count` further equations against `TWO_PI_I`.  `none` models the
`IndexError` raised by `LHSs[LHS_index]` when the list is exhausted. -/
def checkEdges (LHSs : List Box) (TWO_PI_I : Box) (verbose : Bool) :
    ℕ → ℕ → Option Bool × List Diag
  | _, 0 => (some true, [])
  | edge_index, count + 1 =>
    match LHSs[edge_index]? with
    | none => (none, [])
    | some w =>
      if Box.near w TWO_PI_I then
        checkEdges LHSs TWO_PI_I verbose (edge_index + 1) count
      else
        (some false, if verbose then [Diag.edgeFailed edge_index] else [])

/-- The inner cusp loop (`for j in range(num_LHSs)`): check `count` equations
starting at `LHS_index` against `value`; `j` is the within-cusp equation
index used by the diagnostic. -/
def checkCuspEqs (LHSs : List Box) (value : Box) (verbose : Bool) (cusp_index : ℕ) :
    ℕ → ℕ → ℕ → Option Bool × List Diag
  | _, _, 0 => (some true, [])
  | LHS_index, j, count + 1 =>
    match LHSs[LHS_index]? with
    | none => (none, [])
    | some w =>
      if Box.near w value then
        checkCuspEqs LHSs value verbose cusp_index (LHS_index + 1) (j + 1) count
      else
        (some false, if verbose then [Diag.cuspFailed j cusp_index] else [])

/-- The outer cusp loop: for each cusp flag, a complete cusp contributes
`(2, 0)` and a filled cusp `(1, TWO_PI_I)`, consumed from the running cursor
`LHS_index`. -/
def checkCusps (LHSs : List Box) (TWO_PI_I : Box) (verbose : Bool) :
    List Bool → ℕ → ℕ → Option Bool × List Diag
  | [], _, _ => (some true, [])
  | complete :: rest, cusp_index, LHS_index =>
    let numValue : ℕ × Box :=
      if complete then (2, Box.zero) else (1, TWO_PI_I)
    match checkCuspEqs LHSs numValue.2 verbose cusp_index LHS_index 0 numValue.1 with
    | (some true, _) =>
      checkCusps LHSs TWO_PI_I verbose rest (cusp_index + 1) (LHS_index + numValue.1)
    | other => other

/-- Model of `verify_logarithmic_gluing_equations_and_positively_oriented_tets`.
Returns the boolean result (`none` for an uncaught exception) together with
the diagnostics emitted when `verbose` is set.  The empty-shape-list case is
`none`: the orientation loop is vacuous and `shape_intervals[0].parent()`
raises `IndexError`. -/
def verify_logarithmic_gluing_equations_and_positively_oriented_tets
    (manifold : Manifold) (shape_intervals : List Box) (lg : Box → Box)
    (piB : Box) (verbose : Bool) : Option Bool × List Diag :=
  if shape_intervals.all Box.imagPos then
    match shape_intervals with
    | [] => (none, [])
    | _ :: _ =>
      let LHSs := LHSsOf manifold shape_intervals lg
      let TWO_PI_I := twoPiIOf piB
      match checkEdges LHSs TWO_PI_I verbose 0 manifold.num_tetrahedra with
      | (some true, _) =>
        checkCusps LHSs TWO_PI_I verbose manifold.cusp_complete 0 manifold.num_tetrahedra
      | other => other
  else (some false, if verbose then [Diag.shapeNonPos] else [])

/-- Model of `verify_hyperbolicity`.  The external call
`manifold.tetrahedra_shapes('rect', bits_prec, intervals=True)` is modelled by
its outcome `shape_result` (`none` when the solver failed, the case the
`try/except` catches).  An exception escaping the inner verifier is not
caught, hence the `Option` in the result. -/
def verify_hyperbolicity (manifold : Manifold) (lg : Box → Box) (piB : Box)
    (verbose : Bool) (shape_result : Option (List Box)) :
    Option ((Bool × List Box) × List Diag) :=
  match shape_result with
  | none => some ((false, []), if verbose then [Diag.noCertified] else [])
  | some shape_intervals =>
    match verify_logarithmic_gluing_equations_and_positively_oriented_tets
        manifold shape_intervals lg piB verbose with
    | (none, _) => none
    | (some false, d) => some ((false, []), d)
    | (some true, d) => some ((true, shape_intervals), d)

/-- One equation-slot check of the specification: the equation at position
`i`, if present, is within tolerance of `t`. -/
def passAt (LHSs : List Box) (i : ℕ) (t : Box) : Bool :=
  match LHSs[i]? with
  | some w => Box.near w t
  | none => false

/-- All of a block of consecutive equations starting at `start` pass, with
the `i`-th checked against the `i`-th target of `ts`. -/
def passAll (LHSs : List Box) (start : ℕ) (ts : List Box) : Prop :=
  ∀ i (h : i < ts.length), passAt LHSs (start + i) ts[i] = true

instance passAllDecidable (LHSs : List Box) (start : ℕ) (ts : List Box) :
    Decidable (passAll LHSs start ts) :=
  inferInstanceAs
    (Decidable (∀ i (h : i < ts.length), passAt LHSs (start + i) ts[i] = true))

/-- Target values of the cusp equations in cursor order, from the spec: a
complete cusp contributes two equations with target `0`, a filled cusp one
equation with target `2*pi*i`. -/
def cuspTargets (TWO_PI_I : Box) : List Bool → List Box
  | [] => []
  | complete :: rest =>
    (if complete then [Box.zero, Box.zero] else [TWO_PI_I]) ++ cuspTargets TWO_PI_I rest

/-- Target values of all gluing equations in cursor order: first one
`2*pi*i` target per tetrahedron (edge equations), then the cusp targets. -/
def requiredTargets (m : Manifold) (piB : Box) : List Box :=
  List.replicate m.num_tetrahedra (twoPiIOf piB) ++ cuspTargets (twoPiIOf piB) m.cusp_complete

/-- Number of gluing equations the triangulation data promises:
`tetrahedronCount + (2 per complete cusp, 1 per filled cusp)`. -/
def requiredCount (m : Manifold) : ℕ :=
  m.num_tetrahedra + (m.cusp_complete.map (fun c => if c then 2 else 1)).sum

/-- Reference cursor walk used to state the control flow of the check loops:
consume targets in order, `none` when the equation list runs out, `some false`
at the first failing check. -/
def checkSpec (LHSs : List Box) : ℕ → List Box → Option Bool
  | _, [] => some true
  | start, t :: ts =>
    match LHSs[start]? with
    | none => none
    | some w => if Box.near w t then checkSpec LHSs (start + 1) ts else some false

instance : Add Box := ⟨Box.add⟩

instance : Zero Box := ⟨Box.zero⟩

instance : AddCommMonoid Box where
  add_assoc a b c := by
    show Box.add (Box.add a b) c = Box.add a (Box.add b c)
    cases a; cases b; cases c
    simp only [Box.add, Box.mk.injEq]
    refine ⟨by ring, by ring, by ring, by ring⟩
  zero_add a := by
    show Box.add Box.zero a = a
    cases a; simp [Box.add, Box.zero]
  add_zero a := by
    show Box.add a Box.zero = a
    cases a; simp [Box.add, Box.zero]
  add_comm a b := by
    show Box.add a b = Box.add b a
    cases a; cases b
    simp only [Box.add, Box.mk.injEq]
    refine ⟨by ring, by ring, by ring, by ring⟩
  nsmul := nsmulRec

/-- Constant logarithm model returning exactly `2i` for every argument;
with `piBex` below it makes every `[3,0,0]`-type edge equation sum to
exactly `2*pi*i`. -/
def logEx : Box → Box := fun _ => ⟨0, 0, 2, 2⟩

/-- Constant logarithm model returning exactly `1 + 2i`; with it an
equation with coefficients `[3,0,0]` sums to `2*pi*i + 3`. -/
def logOff : Box → Box := fun _ => ⟨1, 1, 2, 2⟩

/-- Stand-in enclosure of `pi` used by the concrete examples (the checks only
ever compare against `twoPiIOf piBex`, so exactness of `pi` is irrelevant). -/
def piBex : Box := ⟨3, 3, 0, 0⟩

/-- A shape enclosure with strictly positive imaginary part. -/
def shapeEx : Box := ⟨0, 0, 1, 1⟩

/-- A shape enclosure whose imaginary part reaches below the real axis. -/
def shapeBad : Box := ⟨0, 0, -1, 1⟩

/-- One-element shape list for the concrete examples. -/
def shapesEx : List Box := [shapeEx]

/-- One tetrahedron, one complete cusp, three matching equations; a passing
instance under `logEx`/`piBex`. -/
def Mpass : Manifold := ⟨1, [true], [[3, 0, 0], [0, 0, 0], [0, 0, 0]]⟩

/-- One tetrahedron, no cusp, one edge equation; under `logOff` its LHS is
`2*pi*i + 3`. -/
def Moff : Manifold := ⟨1, [], [[3, 0, 0]]⟩

/-- One tetrahedron, no cusp, but two equations: one more than the structural
contract allows; the surplus equation is never read. -/
def Mlong : Manifold := ⟨1, [], [[3, 0, 0], [9, 9, 9]]⟩

/-- Two tetrahedra but a single equation: fewer than the structural contract
requires, so the cursor runs off the end. -/
def Mshort : Manifold := ⟨2, [], [[3, 0, 0]]⟩

/-- One tetrahedron, one complete cusp, with a first cusp equation whose LHS
is far from its target `0`. -/
def McuspFail : Manifold := ⟨1, [true], [[3, 0, 0], [5, 0, 0], [0, 0, 0]]⟩

/-- One tetrahedron, one filled cusp: the single cusp equation has target
`2*pi*i` and passes under `logEx`. -/
def Mfilled : Manifold := ⟨1, [false], [[3, 0, 0], [3, 0, 0]]⟩

/-! ### Box algebra helpers -/

theorem Box.add_zero_eq (x : Box) : Box.add x Box.zero = x := by
  cases x; simp [Box.add, Box.zero]

theorem Box.zero_add_eq (x : Box) : Box.add Box.zero x = x := by
  cases x; simp [Box.add, Box.zero]

theorem Box.add_comm_eq (x y : Box) : Box.add x y = Box.add y x := by
  cases x; cases y
  simp only [Box.add, Box.mk.injEq]
  refine ⟨by ring, by ring, by ring, by ring⟩

theorem Box.add_assoc_eq (x y z : Box) :
    Box.add (Box.add x y) z = Box.add x (Box.add y z) := by
  cases x; cases y; cases z
  simp only [Box.add, Box.mk.injEq]
  refine ⟨by ring, by ring, by ring, by ring⟩

theorem Box.mul_ofInt_zero (w : Box) : Box.mul (Box.ofInt 0) w = Box.zero := by
  cases w
  simp [Box.mul, Box.ofInt, Box.zero, iMulLo, iMulHi]

theorem foldl_add_hoist (L : List Box) : ∀ b x : Box,
    L.foldl Box.add (Box.add b x) = Box.add x (L.foldl Box.add b) := by
  induction L with
  | nil => intro b x; simp [List.foldl, Box.add_comm_eq]
  | cons a L ih =>
    intro b x
    simp only [List.foldl]
    rw [show Box.add (Box.add b x) a = Box.add (Box.add b a) x by
      rw [Box.add_assoc_eq, Box.add_assoc_eq, Box.add_comm_eq x a]]
    exact ih (Box.add b a) x

theorem lhs_nil_left (logs : List Box) : lhs [] logs = Box.zero := rfl

theorem lhs_nil_right (equation : List ℤ) : lhs equation [] = Box.zero := by
  cases equation <;> rfl

theorem lhs_cons (e : ℤ) (es : List ℤ) (l : Box) (ls : List Box) :
    lhs (e :: es) (l :: ls) = Box.add (Box.mul (Box.ofInt e) l) (lhs es ls) := by
  unfold lhs
  simp only [List.zipWith, List.foldl]
  rw [foldl_add_hoist]

/-! ### Cursor specification helpers -/

theorem passAll_nil (L : List Box) (s : ℕ) : passAll L s [] := by
  intro i h
  exact absurd h (Nat.not_lt_zero i)

theorem passAll_cons (L : List Box) (s : ℕ) (t : Box) (ts : List Box) :
    passAll L s (t :: ts) ↔ passAt L s t = true ∧ passAll L (s + 1) ts := by
  constructor
  · intro h
    refine ⟨?_, ?_⟩
    · have h0 := h 0 (Nat.succ_pos ts.length)
      simpa using h0
    · intro i hi
      have hh := h (i + 1) (Nat.succ_lt_succ hi)
      have hidx : s + (i + 1) = s + 1 + i := by omega
      rw [hidx] at hh
      simpa using hh
  · rintro ⟨h0, hrest⟩ i hi
    cases i with
    | zero => simpa using h0
    | succ i =>
      have hh := hrest i (Nat.lt_of_succ_lt_succ hi)
      have hidx : s + 1 + i = s + (i + 1) := by omega
      rw [hidx] at hh
      simpa using hh

theorem passAll_append (L : List Box) (ts1 ts2 : List Box) : ∀ s : ℕ,
    passAll L s (ts1 ++ ts2) ↔ passAll L s ts1 ∧ passAll L (s + ts1.length) ts2 := by
  induction ts1 with
  | nil =>
    intro s
    constructor
    · intro h
      exact ⟨passAll_nil L s, by simpa using h⟩
    · rintro ⟨-, h⟩
      simpa using h
  | cons t ts1 ih =>
    intro s
    simp only [List.cons_append, passAll_cons, ih (s + 1), List.length_cons]
    rw [show s + 1 + ts1.length = s + (ts1.length + 1) by omega, and_assoc]

theorem checkSpec_eq_true_iff (L : List Box) : ∀ (ts : List Box) (s : ℕ),
    checkSpec L s ts = some true ↔ passAll L s ts := by
  intro ts
  induction ts with
  | nil =>
    intro s
    exact iff_of_true rfl (passAll_nil L s)
  | cons t ts ih =>
    intro s
    rw [passAll_cons]
    rcases hw : L[s]? with _ | w
    · simp [checkSpec, hw, passAt]
    · cases hn : Box.near w t
      · simp [checkSpec, hw, hn, passAt]
      · simp [checkSpec, hw, hn, passAt, ih (s + 1)]

theorem checkSpec_eq_false_of (L : List Box) : ∀ (ts : List Box) (s j : ℕ) (w : Box)
    (hj : j < ts.length), passAll L s (ts.take j) → L[s + j]? = some w →
    Box.near w ts[j] = false → checkSpec L s ts = some false := by
  intro ts
  induction ts with
  | nil =>
    intro s j w hj
    exact absurd hj (Nat.not_lt_zero j)
  | cons t ts ih =>
    intro s j w hj hpre hget hnear
    cases j with
    | zero =>
      rw [Nat.add_zero] at hget
      simp only [List.getElem_cons_zero] at hnear
      simp [checkSpec, hget, hnear]
    | succ j =>
      rw [List.take_succ_cons, passAll_cons] at hpre
      obtain ⟨h0, hrest⟩ := hpre
      unfold passAt at h0
      rcases hw0 : L[s]? with _ | w0
      · rw [hw0] at h0
        simp at h0
      · rw [hw0] at h0
        simp only [checkSpec, hw0]
        rw [if_pos h0]
        have hidx : s + (j + 1) = s + 1 + j := by omega
        rw [hidx] at hget
        simp only [List.getElem_cons_succ] at hnear
        exact ih (s + 1) j w (Nat.lt_of_succ_lt_succ hj) hrest hget hnear

theorem checkSpec_eq_none_of (L : List Box) : ∀ (ts : List Box) (s j : ℕ),
    j < ts.length → passAll L s (ts.take j) → L[s + j]? = none →
    checkSpec L s ts = none := by
  intro ts
  induction ts with
  | nil =>
    intro s j hj
    exact absurd hj (Nat.not_lt_zero j)
  | cons t ts ih =>
    intro s j hj hpre hget
    cases j with
    | zero =>
      rw [Nat.add_zero] at hget
      simp [checkSpec, hget]
    | succ j =>
      rw [List.take_succ_cons, passAll_cons] at hpre
      obtain ⟨h0, hrest⟩ := hpre
      unfold passAt at h0
      rcases hw0 : L[s]? with _ | w0
      · rw [hw0] at h0
        simp at h0
      · rw [hw0] at h0
        simp only [checkSpec, hw0]
        rw [if_pos h0]
        have hidx : s + (j + 1) = s + 1 + j := by omega
        rw [hidx] at hget
        exact ih (s + 1) j (Nat.lt_of_succ_lt_succ hj) hrest hget

theorem checkSpec_append (L : List Box) : ∀ (ts1 ts2 : List Box) (s : ℕ),
    checkSpec L s (ts1 ++ ts2) =
      if checkSpec L s ts1 = some true then checkSpec L (s + ts1.length) ts2
      else checkSpec L s ts1 := by
  intro ts1
  induction ts1 with
  | nil =>
    intro ts2 s
    simp [checkSpec]
  | cons t ts1 ih =>
    intro ts2 s
    rw [List.cons_append]
    simp only [checkSpec, List.length_cons]
    rcases hw : L[s]? with _ | w
    · simp
    · cases hn : Box.near w t
      · simp [hn]
      · simp only [hn, if_true]
        rw [ih ts2 (s + 1), show s + (ts1.length + 1) = s + 1 + ts1.length by omega]

/-! ### The check loops project onto the cursor specification -/

theorem checkEdges_fst (L : List Box) (tpi : Box) (v : Bool) : ∀ n idx : ℕ,
    (checkEdges L tpi v idx n).1 = checkSpec L idx (List.replicate n tpi) := by
  intro n
  induction n with
  | zero => intro idx; rfl
  | succ n ih =>
    intro idx
    rw [List.replicate_succ]
    simp only [checkEdges, checkSpec]
    rcases hw : L[idx]? with _ | w
    · rfl
    · cases hn : Box.near w tpi
      · simp [hn]
      · simp [hn, ih]

theorem checkCuspEqs_fst (L : List Box) (val : Box) (v : Bool) (ci : ℕ) :
    ∀ n s j : ℕ,
    (checkCuspEqs L val v ci s j n).1 = checkSpec L s (List.replicate n val) := by
  intro n
  induction n with
  | zero => intro s j; rfl
  | succ n ih =>
    intro s j
    rw [List.replicate_succ]
    simp only [checkCuspEqs, checkSpec]
    rcases hw : L[s]? with _ | w
    · rfl
    · cases hn : Box.near w val
      · simp [hn]
      · simp [hn, ih]

theorem checkCusps_fst (L : List Box) (tpi : Box) (v : Bool) :
    ∀ (cusps : List Bool) (ci s : ℕ),
    (checkCusps L tpi v cusps ci s).1 = checkSpec L s (cuspTargets tpi cusps) := by
  intro cusps
  induction cusps with
  | nil => intro ci s; rfl
  | cons c rest ih =>
    intro ci s
    cases c with
    | true =>
      simp only [checkCusps, cuspTargets, if_true]
      have h2 := checkCuspEqs_fst L Box.zero v ci 2 s 0
      rw [checkSpec_append]
      rw [show List.replicate 2 Box.zero = [Box.zero, Box.zero] from rfl] at h2
      rcases hcc : checkCuspEqs L Box.zero v ci s 0 2 with ⟨ob, d⟩
      rw [hcc] at h2
      dsimp only at h2
      rcases ob with _ | b
      · simp [hcc, ← h2]
      · cases b
        · simp [hcc, ← h2]
        · simp only [hcc, ← h2, if_pos rfl]
          rw [ih (ci + 1) (s + 2)]
          rfl
    | false =>
      rw [show checkCusps L tpi v (false :: rest) ci s =
            (match checkCuspEqs L tpi v ci s 0 1 with
              | (some true, _) => checkCusps L tpi v rest (ci + 1) (s + 1)
              | other => other) from rfl,
          show cuspTargets tpi (false :: rest) = [tpi] ++ cuspTargets tpi rest from rfl]
      have h2 := checkCuspEqs_fst L tpi v ci 1 s 0
      rw [checkSpec_append]
      rw [show List.replicate 1 tpi = [tpi] from rfl] at h2
      rcases hcc : checkCuspEqs L tpi v ci s 0 1 with ⟨ob, d⟩
      rw [hcc] at h2
      dsimp only at h2
      rcases ob with _ | b
      · simp [hcc, ← h2]
      · cases b
        · simp [hcc, ← h2]
        · simp only [hcc, ← h2, if_pos rfl]
          rw [ih (ci + 1) (s + 1)]
          rfl

theorem verify_fst (m : Manifold) (shapes : List Box) (lg : Box → Box) (piB : Box)
    (v : Bool) :
    (verify_logarithmic_gluing_equations_and_positively_oriented_tets
        m shapes lg piB v).1 =
      if shapes.all Box.imagPos then
        match shapes with
        | [] => none
        | _ :: _ => checkSpec (LHSsOf m shapes lg) 0 (requiredTargets m piB)
      else some false := by
  unfold verify_logarithmic_gluing_equations_and_positively_oriented_tets
  by_cases hall : shapes.all Box.imagPos = true
  · rw [if_pos hall, if_pos hall]
    cases shapes with
    | nil => rfl
    | cons z zs =>
      dsimp only
      have he := checkEdges_fst (LHSsOf m (z :: zs) lg) (twoPiIOf piB) v
        m.num_tetrahedra 0
      unfold requiredTargets
      rw [checkSpec_append]
      rcases hcc : checkEdges (LHSsOf m (z :: zs) lg) (twoPiIOf piB) v 0
          m.num_tetrahedra with ⟨ob, d⟩
      rw [hcc] at he
      dsimp only at he
      rcases ob with _ | b
      · simp [hcc, ← he]
      · cases b
        · simp [hcc, ← he]
        · simp only [hcc, ← he, if_pos rfl, List.length_replicate, Nat.zero_add]
          exact checkCusps_fst (LHSsOf m (z :: zs) lg) (twoPiIOf piB) v
            m.cusp_complete 0 m.num_tetrahedra
  · rw [if_neg hall, if_neg hall]

theorem verify_fst_true_iff (m : Manifold) (shapes : List Box) (lg : Box → Box)
    (piB : Box) (v : Bool) :
    (verify_logarithmic_gluing_equations_and_positively_oriented_tets
        m shapes lg piB v).1 = some true ↔
      shapes ≠ [] ∧ shapes.all Box.imagPos = true ∧
        passAll (LHSsOf m shapes lg) 0 (requiredTargets m piB) := by
  rw [verify_fst]
  by_cases hall : shapes.all Box.imagPos = true
  · rw [if_pos hall]
    cases shapes with
    | nil => simp
    | cons z zs =>
      simp only [hall, true_and]
      rw [checkSpec_eq_true_iff]
      simp
  · rw [if_neg hall]
    simp [hall]

theorem verify_fst_true_ne_nil (m : Manifold) (shapes : List Box) (lg : Box → Box)
    (piB : Box) (v : Bool) :
    (verify_logarithmic_gluing_equations_and_positively_oriented_tets
        m shapes lg piB v).1 = some true → shapes ≠ [] := by
  intro h
  exact ((verify_fst_true_iff m shapes lg piB v).1 h).1

theorem verify_fst_false_of (m : Manifold) (shapes : List Box) (lg : Box → Box)
    (piB : Box) (v : Bool) (j : ℕ) (w : Box)
    (hne : shapes ≠ []) (hall : shapes.all Box.imagPos = true)
    (hj : j < (requiredTargets m piB).length)
    (hpre : passAll (LHSsOf m shapes lg) 0 ((requiredTargets m piB).take j))
    (hget : (LHSsOf m shapes lg)[j]? = some w)
    (hnear : Box.near w (requiredTargets m piB)[j] = false) :
    (verify_logarithmic_gluing_equations_and_positively_oriented_tets
        m shapes lg piB v).1 = some false := by
  rw [verify_fst, if_pos hall]
  cases shapes with
  | nil => exact absurd rfl hne
  | cons z zs =>
    dsimp only
    refine checkSpec_eq_false_of (LHSsOf m (z :: zs) lg) (requiredTargets m piB)
      0 j w hj hpre ?_ hnear
    simpa using hget

theorem verify_fst_none_of (m : Manifold) (shapes : List Box) (lg : Box → Box)
    (piB : Box) (v : Bool) (j : ℕ)
    (hne : shapes ≠ []) (hall : shapes.all Box.imagPos = true)
    (hj : j < (requiredTargets m piB).length)
    (hpre : passAll (LHSsOf m shapes lg) 0 ((requiredTargets m piB).take j))
    (hget : (LHSsOf m shapes lg)[j]? = none) :
    (verify_logarithmic_gluing_equations_and_positively_oriented_tets
        m shapes lg piB v).1 = none := by
  rw [verify_fst, if_pos hall]
  cases shapes with
  | nil => exact absurd rfl hne
  | cons z zs =>
    dsimp only
    refine checkSpec_eq_none_of (LHSsOf m (z :: zs) lg) (requiredTargets m piB)
      0 j hj hpre ?_
    simpa using hget

theorem LHSsOf_length (m : Manifold) (shapes : List Box) (lg : Box → Box) :
    (LHSsOf m shapes lg).length = m.gluing_equations.length := by
  simp [LHSsOf]

theorem cuspTargets_length (tpi : Box) : ∀ cusps : List Bool,
    (cuspTargets tpi cusps).length =
      (cusps.map (fun c => if c then 2 else 1)).sum := by
  intro cusps
  induction cusps with
  | nil => rfl
  | cons c rest ih => cases c <;> simp [cuspTargets, ih] <;> omega

theorem requiredTargets_length (m : Manifold) (piB : Box) :
    (requiredTargets m piB).length = requiredCount m := by
  simp [requiredTargets, requiredCount, cuspTargets_length]

/-- C1 — The orientation gate.  If some shape interval is not certainly above
the real axis, the verifier's whole result is `(some false, ...)` — an
expression that does not depend on the logarithm primitive, the `pi`
enclosure, or the equations, so no logarithm computation or equation check
influences it; conversely a `true` verdict implies every shape interval passed
the positivity test. -/
theorem C1_orientation_gate (m : Manifold) (shapes : List Box) (lg : Box → Box)
    (piB : Box) (v : Bool) :
    ((∃ z ∈ shapes, Box.imagPos z = false) →
      verify_logarithmic_gluing_equations_and_positively_oriented_tets
          m shapes lg piB v
        = (some false, if v then [Diag.shapeNonPos] else [])) ∧
    ((verify_logarithmic_gluing_equations_and_positively_oriented_tets
          m shapes lg piB v).1 = some true →
      ∀ z ∈ shapes, Box.imagPos z = true) := by
  constructor
  · rintro ⟨z, hz, hbad⟩
    have hall : ¬ shapes.all Box.imagPos = true := by
      intro hall
      rw [List.all_eq_true] at hall
      rw [hall z hz] at hbad
      simp at hbad
    unfold verify_logarithmic_gluing_equations_and_positively_oriented_tets
    rw [if_neg hall]
  · intro h
    have := ((verify_fst_true_iff m shapes lg piB v).1 h).2.1
    rw [List.all_eq_true] at this
    exact this

/-- C9 — On an empty shape list the verifier never reaches a boolean verdict:
the orientation loop is vacuous and `shape_intervals[0].parent()` raises, so
the model returns `none`; a non-empty shape list is the function's
precondition. -/
theorem C9_empty_shapes_raise (m : Manifold) (lg : Box → Box) (piB : Box)
    (v : Bool) :
    verify_logarithmic_gluing_equations_and_positively_oriented_tets
        m [] lg piB v = (none, []) := rfl

theorem requiredTargets_length_split (m : Manifold) (piB : Box) :
    (requiredTargets m piB).length =
      m.num_tetrahedra + (cuspTargets (twoPiIOf piB) m.cusp_complete).length := by
  simp [requiredTargets]

theorem requiredTargets_take_edge (m : Manifold) (piB : Box) (j : ℕ)
    (hj : j ≤ m.num_tetrahedra) :
    (requiredTargets m piB).take j = List.replicate j (twoPiIOf piB) := by
  unfold requiredTargets
  rw [List.take_append_of_le_length (by simpa using hj), List.take_replicate,
    min_eq_left hj]

theorem requiredTargets_getElem_edge (m : Manifold) (piB : Box) (j : ℕ)
    (hj : j < m.num_tetrahedra) (hjl : j < (requiredTargets m piB).length) :
    (requiredTargets m piB)[j] = twoPiIOf piB := by
  unfold requiredTargets at hjl ⊢
  rw [List.getElem_append_left (by simpa using hj)]
  simp

theorem requiredTargets_take_cusp (m : Manifold) (piB : Box) (j : ℕ) :
    (requiredTargets m piB).take (m.num_tetrahedra + j) =
      List.replicate m.num_tetrahedra (twoPiIOf piB) ++
        (cuspTargets (twoPiIOf piB) m.cusp_complete).take j := by
  have h := @List.take_append Box (List.replicate m.num_tetrahedra (twoPiIOf piB))
    (cuspTargets (twoPiIOf piB) m.cusp_complete) j
  rw [List.length_replicate] at h
  exact h

theorem requiredTargets_getElem_cusp (m : Manifold) (piB : Box) (j : ℕ)
    (hjl : m.num_tetrahedra + j < (requiredTargets m piB).length)
    (hj : j < (cuspTargets (twoPiIOf piB) m.cusp_complete).length) :
    (requiredTargets m piB)[m.num_tetrahedra + j] =
      (cuspTargets (twoPiIOf piB) m.cusp_complete)[j] := by
  unfold requiredTargets at hjl ⊢
  rw [List.getElem_append_right (by simp)]
  simp

/-- C2 — Edge equations.  If the first `j` edge equations pass but the `j`-th
(with `j < tetrahedronCount`) has an LHS not within tolerance of `2*pi*i`, the
verifier returns `false`; and a `true` verdict requires every one of the first
`tetrahedronCount` equations to be within tolerance of `2*pi*i`. -/
theorem C2_edge_equations (m : Manifold) (shapes : List Box) (lg : Box → Box)
    (piB : Box) (v : Bool) :
    (∀ (j : ℕ) (w : Box), j < m.num_tetrahedra → shapes ≠ [] →
      shapes.all Box.imagPos = true →
      passAll (LHSsOf m shapes lg) 0 (List.replicate j (twoPiIOf piB)) →
      (LHSsOf m shapes lg)[j]? = some w →
      Box.near w (twoPiIOf piB) = false →
      (verify_logarithmic_gluing_equations_and_positively_oriented_tets
          m shapes lg piB v).1 = some false) ∧
    ((verify_logarithmic_gluing_equations_and_positively_oriented_tets
          m shapes lg piB v).1 = some true →
      ∀ j : ℕ, j < m.num_tetrahedra →
        passAt (LHSsOf m shapes lg) j (twoPiIOf piB) = true) := by
  constructor
  · intro j w hj hne hall hpre hget hnear
    have hjl : j < (requiredTargets m piB).length := by
      rw [requiredTargets_length_split]
      omega
    refine verify_fst_false_of m shapes lg piB v j w hne hall hjl ?_ hget ?_
    · rw [requiredTargets_take_edge m piB j (le_of_lt hj)]
      exact hpre
    · rw [requiredTargets_getElem_edge m piB j hj hjl]
      exact hnear
  · intro h j hj
    obtain ⟨-, -, hpass⟩ := (verify_fst_true_iff m shapes lg piB v).1 h
    have hjl : j < (requiredTargets m piB).length := by
      rw [requiredTargets_length_split]
      omega
    have hp := hpass j hjl
    rw [requiredTargets_getElem_edge m piB j hj hjl] at hp
    simpa using hp

/-- C3 — Cusp equations.  A `true` verdict requires, after the edge block,
every cusp equation to pass against the targets `cuspTargets`: two
consecutive `0`-targets per complete cusp, one `2*pi*i`-target per filled
cusp, consumed in order from the cursor position `tetrahedronCount`; and the
first failing cusp equation (edges and earlier cusp equations passing) makes
the verifier return `false`. -/
theorem C3_cusp_equations (m : Manifold) (shapes : List Box) (lg : Box → Box)
    (piB : Box) (v : Bool) :
    ((verify_logarithmic_gluing_equations_and_positively_oriented_tets
          m shapes lg piB v).1 = some true →
      passAll (LHSsOf m shapes lg) 0
          (List.replicate m.num_tetrahedra (twoPiIOf piB)) ∧
        passAll (LHSsOf m shapes lg) m.num_tetrahedra
          (cuspTargets (twoPiIOf piB) m.cusp_complete)) ∧
    (∀ (j : ℕ) (w : Box)
      (hj : j < (cuspTargets (twoPiIOf piB) m.cusp_complete).length),
      shapes ≠ [] → shapes.all Box.imagPos = true →
      passAll (LHSsOf m shapes lg) 0
        (List.replicate m.num_tetrahedra (twoPiIOf piB)) →
      passAll (LHSsOf m shapes lg) m.num_tetrahedra
        ((cuspTargets (twoPiIOf piB) m.cusp_complete).take j) →
      (LHSsOf m shapes lg)[m.num_tetrahedra + j]? = some w →
      Box.near w (cuspTargets (twoPiIOf piB) m.cusp_complete)[j] = false →
      (verify_logarithmic_gluing_equations_and_positively_oriented_tets
          m shapes lg piB v).1 = some false) := by
  constructor
  · intro h
    obtain ⟨-, -, hpass⟩ := (verify_fst_true_iff m shapes lg piB v).1 h
    unfold requiredTargets at hpass
    rw [passAll_append] at hpass
    obtain ⟨h1, h2⟩ := hpass
    refine ⟨h1, ?_⟩
    simpa using h2
  · intro j w hj hne hall hedges hpre hget hnear
    have hjl : m.num_tetrahedra + j < (requiredTargets m piB).length := by
      rw [requiredTargets_length_split]
      omega
    refine verify_fst_false_of m shapes lg piB v (m.num_tetrahedra + j) w hne hall
      hjl ?_ hget ?_
    · rw [requiredTargets_take_cusp]
      refine (passAll_append (LHSsOf m shapes lg) _ _ 0).2 ⟨hedges, ?_⟩
      simpa using hpre
    · rw [requiredTargets_getElem_cusp m piB j hjl hj]
      exact hnear

theorem sq_le_max_of_between (lo hi x : ℚ) (h1 : lo ≤ x) (h2 : x ≤ hi) :
    x * x ≤ max (lo * lo) (hi * hi) := by
  rcases le_total 0 x with h0 | h0
  · exact le_max_of_le_right (mul_le_mul h2 h2 h0 (le_trans h0 h2))
  · refine le_max_of_le_left ?_
    nlinarith

/-- C4 — The tolerance test is a worst-case test.  For boxes with ordered
endpoints, `abs(LHS - target) < 0.1` as the verifier evaluates it holds
exactly when every point of the LHS enclosure is at squared distance below
`(1/10)^2` from every point of the target enclosure — the interval's worst
case, not its center. -/
theorem C4_tolerance_worst_case (w t : Box) (hw : Box.valid w) (ht : Box.valid t) :
    Box.near w t = true ↔
      ∀ a b c d : ℚ, inBox w a b → inBox t c d →
        (a - c) * (a - c) + (b - d) * (b - d) < 1 / 100 := by
  unfold Box.near
  rw [decide_eq_true_eq]
  unfold Box.absSqMax Box.sub
  dsimp only
  constructor
  · intro hlt a b c d hab hcd
    obtain ⟨hw1, hw2, hw3, hw4⟩ := hab
    obtain ⟨ht1, ht2, ht3, ht4⟩ := hcd
    have hre : (a - c) * (a - c) ≤
        max ((w.reLo - t.reHi) * (w.reLo - t.reHi))
          ((w.reHi - t.reLo) * (w.reHi - t.reLo)) :=
      sq_le_max_of_between _ _ _ (by linarith) (by linarith)
    have him : (b - d) * (b - d) ≤
        max ((w.imLo - t.imHi) * (w.imLo - t.imHi))
          ((w.imHi - t.imLo) * (w.imHi - t.imLo)) :=
      sq_le_max_of_between _ _ _ (by linarith) (by linarith)
    linarith
  · intro key
    rcases le_total ((w.reLo - t.reHi) * (w.reLo - t.reHi))
        ((w.reHi - t.reLo) * (w.reHi - t.reLo)) with hre | hre
    · rcases le_total ((w.imLo - t.imHi) * (w.imLo - t.imHi))
          ((w.imHi - t.imLo) * (w.imHi - t.imLo)) with him | him
      · rw [max_eq_right hre, max_eq_right him]
        have hh := key w.reHi w.imHi t.reLo t.imLo
          ⟨hw.1, le_refl _, hw.2, le_refl _⟩ ⟨le_refl _, ht.1, le_refl _, ht.2⟩
        linarith
      · rw [max_eq_right hre, max_eq_left him]
        have hh := key w.reHi w.imLo t.reLo t.imHi
          ⟨hw.1, le_refl _, le_refl _, hw.2⟩ ⟨le_refl _, ht.1, ht.2, le_refl _⟩
        linarith
    · rcases le_total ((w.imLo - t.imHi) * (w.imLo - t.imHi))
          ((w.imHi - t.imLo) * (w.imHi - t.imLo)) with him | him
      · rw [max_eq_left hre, max_eq_right him]
        have hh := key w.reLo w.imHi t.reHi t.imLo
          ⟨le_refl _, hw.1, hw.2, le_refl _⟩ ⟨ht.1, le_refl _, le_refl _, ht.2⟩
        linarith
      · rw [max_eq_left hre, max_eq_left him]
        have hh := key w.reLo w.imLo t.reHi t.imHi
          ⟨le_refl _, hw.1, le_refl _, hw.2⟩ ⟨ht.1, le_refl _, ht.2, le_refl _⟩
        linarith

theorem logsOf_cons (lg : Box → Box) (z : Box) (zs : List Box) :
    logsOf lg (z :: zs) =
      lg z :: lg (Box.div Box.one (Box.sub Box.one z)) ::
        lg (Box.div (Box.sub z Box.one) z) :: logsOf lg zs := rfl

theorem logsOf_length (lg : Box → Box) : ∀ shapes : List Box,
    (logsOf lg shapes).length = 3 * shapes.length := by
  intro shapes
  induction shapes with
  | nil => rfl
  | cons z zs ih =>
    rw [logsOf_cons]
    simp only [List.length_cons, ih]
    omega

theorem logsOf_getElem (lg : Box → Box) : ∀ (shapes : List Box) (i : ℕ)
    (h : i < shapes.length),
    (logsOf lg shapes)[3 * i]? = some (lg shapes[i]) ∧
    (logsOf lg shapes)[3 * i + 1]? =
      some (lg (Box.div Box.one (Box.sub Box.one shapes[i]))) ∧
    (logsOf lg shapes)[3 * i + 2]? =
      some (lg (Box.div (Box.sub shapes[i] Box.one) shapes[i])) := by
  intro shapes
  induction shapes with
  | nil =>
    intro i h
    exact absurd h (Nat.not_lt_zero i)
  | cons z zs ih =>
    intro i h
    cases i with
    | zero =>
      refine ⟨?_, ?_, ?_⟩ <;> simp [logsOf_cons]
    | succ i =>
      have ihp := ih i (Nat.lt_of_succ_lt_succ h)
      have e3 : 3 * (i + 1) = 3 * i + 1 + 1 + 1 := by ring
      rw [logsOf_cons, e3]
      simp only [List.getElem?_cons_succ, List.getElem_cons_succ]
      exact ihp

theorem lhs_eq_sum (equation : List ℤ) : ∀ logs : List Box,
    equation.length = logs.length →
    lhs equation logs = ∑ i ∈ Finset.range equation.length,
      Box.mul (Box.ofInt (equation.getD i 0)) (logs.getD i Box.zero) := by
  induction equation with
  | nil =>
    intro logs h
    rw [lhs_nil_left]
    rfl
  | cons e es ih =>
    intro logs h
    cases logs with
    | nil => simp at h
    | cons l ls =>
      rw [lhs_cons, List.length_cons, Finset.sum_range_succ']
      simp only [List.getD_cons_succ, List.getD_cons_zero]
      rw [← ih ls (by simpa using h)]
      rw [Box.add_comm_eq]
      rfl

/-- C5 — Logarithm assembly and LHS evaluation.  The flat logarithm list has
`log z_i` at slot `3i`, `log (1/(1-z_i))` at slot `3i+1` and
`log ((z_i-1)/z_i)` at slot `3i+2` (length `3 * tetrahedra`); the verifier's
`k`-th LHS is exactly `lhs` of the `k`-th coefficient vector against this
list; and for an aligned coefficient vector `lhs` is the integer-scaled
interval dot product. -/
theorem C5_log_assembly_and_lhs (m : Manifold) (shapes : List Box)
    (lg : Box → Box) :
    ((logsOf lg shapes).length = 3 * shapes.length) ∧
    (∀ (i : ℕ) (h : i < shapes.length),
      (logsOf lg shapes)[3 * i]? = some (lg shapes[i]) ∧
      (logsOf lg shapes)[3 * i + 1]? =
        some (lg (Box.div Box.one (Box.sub Box.one shapes[i]))) ∧
      (logsOf lg shapes)[3 * i + 2]? =
        some (lg (Box.div (Box.sub shapes[i] Box.one) shapes[i]))) ∧
    (∀ k : ℕ, (LHSsOf m shapes lg)[k]? =
      (m.gluing_equations[k]?).map
        (fun equation => lhs equation (logsOf lg shapes))) ∧
    (∀ equation : List ℤ, equation.length = (logsOf lg shapes).length →
      lhs equation (logsOf lg shapes) =
        ∑ i ∈ Finset.range equation.length,
          Box.mul (Box.ofInt (equation.getD i 0))
            ((logsOf lg shapes).getD i Box.zero)) := by
  refine ⟨logsOf_length lg shapes, logsOf_getElem lg shapes, ?_, ?_⟩
  · intro k
    simp [LHSsOf]
  · intro equation h
    exact lhs_eq_sum equation _ h

theorem lhs_take (equation : List ℤ) : ∀ logs : List Box,
    lhs (equation.take logs.length) logs = lhs equation logs := by
  induction equation with
  | nil => intro logs; simp
  | cons e es ih =>
    intro logs
    cases logs with
    | nil => rfl
    | cons l ls =>
      rw [List.length_cons, List.take_succ_cons, lhs_cons, lhs_cons, ih ls]

theorem lhs_replicate_zero : ∀ (k : ℕ) (logs : List Box),
    lhs (List.replicate k 0) logs = Box.zero := by
  intro k
  induction k with
  | zero => intro logs; rfl
  | succ k ih =>
    intro logs
    cases logs with
    | nil => exact lhs_nil_right _
    | cons l ls =>
      rw [List.replicate_succ, lhs_cons, ih ls, Box.mul_ofInt_zero, Box.add_zero_eq]

theorem lhs_pad (k : ℕ) : ∀ (equation : List ℤ) (logs : List Box),
    lhs (equation ++ List.replicate k 0) logs = lhs equation logs := by
  intro equation
  induction equation with
  | nil =>
    intro logs
    rw [List.nil_append, lhs_nil_left, lhs_replicate_zero]
  | cons e es ih =>
    intro logs
    cases logs with
    | nil => rw [lhs_nil_right, lhs_nil_right]
    | cons l ls =>
      rw [List.cons_append, lhs_cons, lhs_cons, ih ls]

/-- C10 — Coefficient vectors of the wrong length are consumed silently: the
dot product only sees the overlapping prefix (`zip` truncation), surplus
coefficients beyond the logarithm list are ignored, and missing coefficients
behave exactly like zeros (padding with zeros does not change the LHS); no
length validation happens and no error is raised — `lhs` is total. -/
theorem C10_dot_product_truncation (equation : List ℤ) (logs : List Box) (k : ℕ) :
    lhs equation logs = lhs (equation.take logs.length) logs ∧
    lhs (equation ++ List.replicate k 0) logs = lhs equation logs :=
  ⟨(lhs_take equation logs).symm, lhs_pad k equation logs⟩

theorem verify_hyperbolicity_some (m : Manifold) (lg : Box → Box) (piB : Box)
    (v : Bool) (shapes : List Box) :
    verify_hyperbolicity m lg piB v (some shapes) =
      (match verify_logarithmic_gluing_equations_and_positively_oriented_tets
          m shapes lg piB v with
        | (none, _) => none
        | (some false, d) => some ((false, []), d)
        | (some true, d) => some ((true, shapes), d)) := rfl

/-- C6 — Orchestration.  `verify_hyperbolicity` returns `(false, [])` when the
solver signals failure and when the logarithmic verification answers `false`;
on a `true` answer it returns `(true, shapes)` with exactly the solver's shape
list; and whenever it returns at all, the shape component is non-empty iff
the certified flag is `true`. -/
theorem C6_orchestration (m : Manifold) (lg : Box → Box) (piB : Box) (v : Bool) :
    (verify_hyperbolicity m lg piB v none =
      some ((false, []), if v then [Diag.noCertified] else [])) ∧
    (∀ shapes : List Box,
      (verify_logarithmic_gluing_equations_and_positively_oriented_tets
          m shapes lg piB v).1 = some false →
      verify_hyperbolicity m lg piB v (some shapes) =
        some ((false, []),
          (verify_logarithmic_gluing_equations_and_positively_oriented_tets
            m shapes lg piB v).2)) ∧
    (∀ shapes : List Box,
      (verify_logarithmic_gluing_equations_and_positively_oriented_tets
          m shapes lg piB v).1 = some true →
      verify_hyperbolicity m lg piB v (some shapes) =
        some ((true, shapes),
          (verify_logarithmic_gluing_equations_and_positively_oriented_tets
            m shapes lg piB v).2)) ∧
    (∀ (sr : Option (List Box)) (r : (Bool × List Box) × List Diag),
      verify_hyperbolicity m lg piB v sr = some r →
      (r.1.2 ≠ [] ↔ r.1.1 = true)) := by
  refine ⟨rfl, ?_, ?_, ?_⟩
  · intro shapes h
    rw [verify_hyperbolicity_some]
    rcases hv : verify_logarithmic_gluing_equations_and_positively_oriented_tets
        m shapes lg piB v with ⟨ob, d⟩
    rw [hv] at h
    dsimp only at h
    subst h
    rfl
  · intro shapes h
    rw [verify_hyperbolicity_some]
    rcases hv : verify_logarithmic_gluing_equations_and_positively_oriented_tets
        m shapes lg piB v with ⟨ob, d⟩
    rw [hv] at h
    dsimp only at h
    subst h
    rfl
  · intro sr r h
    rcases sr with _ | shapes
    · unfold verify_hyperbolicity at h
      obtain rfl := Option.some.inj h
      simp
    · rw [verify_hyperbolicity_some] at h
      rcases hv : verify_logarithmic_gluing_equations_and_positively_oriented_tets
          m shapes lg piB v with ⟨ob, d⟩
      rw [hv] at h
      rcases ob with _ | b
      · exact absurd h (by simp)
      · cases b
        · obtain rfl := Option.some.inj h
          simp
        · obtain rfl := Option.some.inj h
          have hne : shapes ≠ [] := by
            refine verify_fst_true_ne_nil m shapes lg piB v ?_
            rw [hv]
          simpa using hne

/-- C8 — Determinism and the advisory channel.  The boolean result of the
logarithmic verifier and the certified result of `verify_hyperbolicity` do
not depend on the verbose flag (which only selects diagnostics), and both
functions are pure: equal inputs give equal outputs. -/
theorem C8_determinism_and_verbose (m : Manifold) (shapes : List Box)
    (lg : Box → Box) (piB : Box) (sr : Option (List Box)) (v v' : Bool) :
    ((verify_logarithmic_gluing_equations_and_positively_oriented_tets
        m shapes lg piB v).1 =
      (verify_logarithmic_gluing_equations_and_positively_oriented_tets
        m shapes lg piB v').1) ∧
    (Option.map Prod.fst (verify_hyperbolicity m lg piB v sr) =
      Option.map Prod.fst (verify_hyperbolicity m lg piB v' sr)) ∧
    (verify_logarithmic_gluing_equations_and_positively_oriented_tets
        m shapes lg piB v =
      verify_logarithmic_gluing_equations_and_positively_oriented_tets
        m shapes lg piB v) ∧
    (verify_hyperbolicity m lg piB v sr = verify_hyperbolicity m lg piB v sr) := by
  refine ⟨by rw [verify_fst, verify_fst], ?_, rfl, rfl⟩
  rcases sr with _ | s
  · rfl
  · have h1 : (verify_logarithmic_gluing_equations_and_positively_oriented_tets
        m s lg piB v).1 =
      (verify_logarithmic_gluing_equations_and_positively_oriented_tets
        m s lg piB v').1 := by rw [verify_fst, verify_fst]
    rw [verify_hyperbolicity_some, verify_hyperbolicity_some]
    rcases hv : verify_logarithmic_gluing_equations_and_positively_oriented_tets
        m s lg piB v with ⟨ob, d⟩
    rcases hv' : verify_logarithmic_gluing_equations_and_positively_oriented_tets
        m s lg piB v' with ⟨ob', d'⟩
    rw [hv, hv'] at h1
    dsimp only at h1
    subst h1
    rcases ob with _ | b
    · rfl
    · cases b <;> rfl

/-! ### Concrete evaluations for the example inputs -/

theorem imagPos_shapeEx : Box.imagPos shapeEx = true := by
  simp [Box.imagPos, shapeEx]

theorem imagPos_shapeBad : Box.imagPos shapeBad = false := by
  simp [Box.imagPos, shapeBad]

theorem twoPiI_ex : twoPiIOf piBex = ⟨0, 0, 6, 6⟩ := by
  norm_num [twoPiIOf, piBex, Box.twoI, Box.mul, iMulLo, iMulHi, min_def, max_def]

theorem logsOf_ex : logsOf logEx shapesEx =
    [⟨0, 0, 2, 2⟩, ⟨0, 0, 2, 2⟩, ⟨0, 0, 2, 2⟩] := rfl

theorem logsOf_off : logsOf logOff shapesEx =
    [⟨1, 1, 2, 2⟩, ⟨1, 1, 2, 2⟩, ⟨1, 1, 2, 2⟩] := rfl

theorem lhs_300_ex : lhs [3, 0, 0] [⟨0, 0, 2, 2⟩, ⟨0, 0, 2, 2⟩, ⟨0, 0, 2, 2⟩] =
    ⟨0, 0, 6, 6⟩ := by
  norm_num [lhs, List.zipWith, List.foldl, Box.mul, Box.ofInt, Box.add, Box.zero,
    iMulLo, iMulHi, min_def, max_def]

theorem lhs_000_ex : lhs [0, 0, 0] [⟨0, 0, 2, 2⟩, ⟨0, 0, 2, 2⟩, ⟨0, 0, 2, 2⟩] =
    ⟨0, 0, 0, 0⟩ := by
  norm_num [lhs, List.zipWith, List.foldl, Box.mul, Box.ofInt, Box.add, Box.zero,
    iMulLo, iMulHi, min_def, max_def]

theorem lhs_500_ex : lhs [5, 0, 0] [⟨0, 0, 2, 2⟩, ⟨0, 0, 2, 2⟩, ⟨0, 0, 2, 2⟩] =
    ⟨0, 0, 10, 10⟩ := by
  norm_num [lhs, List.zipWith, List.foldl, Box.mul, Box.ofInt, Box.add, Box.zero,
    iMulLo, iMulHi, min_def, max_def]

theorem lhs_300_off : lhs [3, 0, 0] [⟨1, 1, 2, 2⟩, ⟨1, 1, 2, 2⟩, ⟨1, 1, 2, 2⟩] =
    ⟨3, 3, 6, 6⟩ := by
  norm_num [lhs, List.zipWith, List.foldl, Box.mul, Box.ofInt, Box.add, Box.zero,
    iMulLo, iMulHi, min_def, max_def]

theorem near_tpi_ex : Box.near ⟨0, 0, 6, 6⟩ ⟨0, 0, 6, 6⟩ = true := by
  simp only [Box.near, decide_eq_true_eq]
  norm_num [Box.absSqMax, Box.sub, max_def]

theorem near_zero_ex : Box.near ⟨0, 0, 0, 0⟩ Box.zero = true := by
  simp only [Box.near, decide_eq_true_eq]
  norm_num [Box.absSqMax, Box.sub, Box.zero, max_def]

theorem near_off_ex : Box.near ⟨3, 3, 6, 6⟩ ⟨0, 0, 6, 6⟩ = false := by
  simp only [Box.near, decide_eq_false_iff_not]
  norm_num [Box.absSqMax, Box.sub, max_def]

theorem near_cuspFail_ex : Box.near ⟨0, 0, 10, 10⟩ Box.zero = false := by
  simp only [Box.near, decide_eq_false_iff_not]
  norm_num [Box.absSqMax, Box.sub, Box.zero, max_def]

theorem passAt_of (L : List Box) (i : ℕ) (t w : Box) (h : L[i]? = some w)
    (hn : Box.near w t = true) : passAt L i t = true := by
  unfold passAt
  rw [h]
  exact hn

theorem targets_Mlong : requiredTargets Mlong piBex = [⟨0, 0, 6, 6⟩] := by
  simp [requiredTargets, Mlong, cuspTargets, twoPiI_ex]

theorem targets_Mpass : requiredTargets Mpass piBex =
    [⟨0, 0, 6, 6⟩, Box.zero, Box.zero] := by
  simp [requiredTargets, Mpass, cuspTargets, twoPiI_ex]

theorem targets_Mshort : requiredTargets Mshort piBex =
    [⟨0, 0, 6, 6⟩, ⟨0, 0, 6, 6⟩] := by
  simp [requiredTargets, Mshort, cuspTargets, twoPiI_ex, List.replicate]

theorem LHSs_Mpass : LHSsOf Mpass shapesEx logEx =
    [⟨0, 0, 6, 6⟩, ⟨0, 0, 0, 0⟩, ⟨0, 0, 0, 0⟩] := by
  simp [LHSsOf, Mpass, logsOf_ex, lhs_300_ex, lhs_000_ex]

theorem LHSs_Moff : LHSsOf Moff shapesEx logOff = [⟨3, 3, 6, 6⟩] := by
  simp [LHSsOf, Moff, logsOf_off, lhs_300_off]

theorem LHSs_Mshort : LHSsOf Mshort shapesEx logEx = [⟨0, 0, 6, 6⟩] := by
  simp [LHSsOf, Mshort, logsOf_ex, lhs_300_ex]

theorem LHSs_McuspFail : LHSsOf McuspFail shapesEx logEx =
    [⟨0, 0, 6, 6⟩, ⟨0, 0, 10, 10⟩, ⟨0, 0, 0, 0⟩] := by
  simp [LHSsOf, McuspFail, logsOf_ex, lhs_300_ex, lhs_500_ex, lhs_000_ex]

theorem Mpass_true :
    (verify_logarithmic_gluing_equations_and_positively_oriented_tets
        Mpass shapesEx logEx piBex false).1 = some true := by
  rw [verify_fst_true_iff]
  refine ⟨by simp [shapesEx], by simp [shapesEx, imagPos_shapeEx], ?_⟩
  rw [targets_Mpass]
  refine (passAll_cons _ _ _ _).2 ⟨?_, (passAll_cons _ _ _ _).2 ⟨?_,
    (passAll_cons _ _ _ _).2 ⟨?_, passAll_nil _ _⟩⟩⟩
  · exact passAt_of _ _ _ _ (by simp [LHSs_Mpass]) near_tpi_ex
  · exact passAt_of _ _ _ _ (by simp [LHSs_Mpass]) near_zero_ex
  · exact passAt_of _ _ _ _ (by simp [LHSs_Mpass]) near_zero_ex


theorem targets_Moff : requiredTargets Moff piBex = [⟨0, 0, 6, 6⟩] := by
  simp [requiredTargets, Moff, cuspTargets, twoPiI_ex]

theorem targets_McuspFail : requiredTargets McuspFail piBex =
    [⟨0, 0, 6, 6⟩, Box.zero, Box.zero] := by
  simp [requiredTargets, McuspFail, cuspTargets, twoPiI_ex]

theorem Moff_false :
    (verify_logarithmic_gluing_equations_and_positively_oriented_tets
        Moff shapesEx logOff piBex false).1 = some false := by
  refine verify_fst_false_of Moff shapesEx logOff piBex false 0 ⟨3, 3, 6, 6⟩
    (by simp [shapesEx]) (by simp [shapesEx, imagPos_shapeEx]) ?_ ?_ ?_ ?_
  · simp [targets_Moff]
  · exact passAll_nil _ _
  · simp [LHSs_Moff]
  · rw [show (requiredTargets Moff piBex)[0] = Box.mk 0 0 6 6 from by
      simp [targets_Moff]]
    exact near_off_ex

/-- C7 counterexample — A structural length mismatch is not reported as a
distinct fault: `Mlong` supplies two equations where the contract
(`tetrahedronCount + cusp contributions`) requires one, yet the verifier
consumes the prefix it expects and returns the ordinary verdict
`(some true, [])`, reading the surplus equation not at all. -/
theorem C7_counterexample :
    Mlong.gluing_equations.length ≠ requiredCount Mlong ∧
    (verify_logarithmic_gluing_equations_and_positively_oriented_tets
        Mlong shapesEx logEx piBex false).1 = some true := by
  constructor
  · decide
  · rw [verify_fst_true_iff]
    refine ⟨by simp [shapesEx], by simp [shapesEx, imagPos_shapeEx], ?_⟩
    rw [targets_Mlong]
    refine (passAll_cons _ _ _ _).2 ⟨?_, passAll_nil _ _⟩
    refine passAt_of _ _ _ (lhs [3, 0, 0] (logsOf logEx shapesEx))
      (by simp [LHSsOf, Mlong]) ?_
    rw [logsOf_ex, lhs_300_ex]
    exact near_tpi_ex

/-- C7 amended — Only a shorter-than-required equation list is distinguished
from an ordinary verdict: with fewer equations than
`tetrahedronCount + cusp contributions` the verifier can never answer `true`,
and when every supplied equation passes its check the cursor runs off the end
and the call raises (`none`); a longer-than-required list is silently
accepted (see the counterexample). -/
theorem C7_amended_short_list (m : Manifold) (shapes : List Box) (lg : Box → Box)
    (piB : Box) (v : Bool) :
    (m.gluing_equations.length < requiredCount m →
      (verify_logarithmic_gluing_equations_and_positively_oriented_tets
          m shapes lg piB v).1 ≠ some true) ∧
    (shapes ≠ [] → shapes.all Box.imagPos = true →
      m.gluing_equations.length < requiredCount m →
      passAll (LHSsOf m shapes lg) 0
        ((requiredTargets m piB).take m.gluing_equations.length) →
      (verify_logarithmic_gluing_equations_and_positively_oriented_tets
          m shapes lg piB v).1 = none) := by
  constructor
  · intro hlen htrue
    obtain ⟨hne, hall, hpass⟩ := (verify_fst_true_iff m shapes lg piB v).1 htrue
    have hlt : (LHSsOf m shapes lg).length < (requiredTargets m piB).length := by
      rw [LHSsOf_length, requiredTargets_length]
      exact hlen
    have hp := hpass (LHSsOf m shapes lg).length hlt
    unfold passAt at hp
    rw [Nat.zero_add, List.getElem?_eq_none (le_refl _)] at hp
    simp at hp
  · intro hne hall hlen hpass
    have hj : m.gluing_equations.length < (requiredTargets m piB).length := by
      rw [requiredTargets_length]
      exact hlen
    refine verify_fst_none_of m shapes lg piB v m.gluing_equations.length hne hall
      hj hpass ?_
    exact List.getElem?_eq_none (by rw [LHSsOf_length])


/-- Witness for C1 at concrete inputs: a shape reaching below the real axis
makes the full result `(some false, [shapeNonPos])`, and the passing example
has all shapes strictly above the real axis. -/
theorem C1_witness :
    verify_logarithmic_gluing_equations_and_positively_oriented_tets
        Mpass [shapeBad] logEx piBex true = (some false, [Diag.shapeNonPos]) ∧
    (∀ z ∈ shapesEx, Box.imagPos z = true) := by
  constructor
  · have h := (C1_orientation_gate Mpass [shapeBad] logEx piBex true).1
      ⟨shapeBad, by simp, imagPos_shapeBad⟩
    simpa using h
  · exact (C1_orientation_gate Mpass shapesEx logEx piBex false).2 Mpass_true

/-- Witness for C2: the `Moff` edge equation evaluates to `2*pi*i + 3` and the
verifier answers `false`; in the passing example the single edge equation is
within tolerance of `2*pi*i`. -/
theorem C2_witness :
    (LHSsOf Moff shapesEx logOff)[0]? =
      some (Box.add (twoPiIOf piBex) (Box.ofInt 3)) ∧
    (verify_logarithmic_gluing_equations_and_positively_oriented_tets
        Moff shapesEx logOff piBex false).1 = some false ∧
    passAt (LHSsOf Mpass shapesEx logEx) 0 (twoPiIOf piBex) = true := by
  refine ⟨?_, ?_, ?_⟩
  · rw [LHSs_Moff]
    norm_num [twoPiI_ex, Box.add, Box.ofInt]
  · exact (C2_edge_equations Moff shapesEx logOff piBex false).1 0 ⟨3, 3, 6, 6⟩
      (by simp [Moff]) (by simp [shapesEx]) (by simp [shapesEx, imagPos_shapeEx])
      (passAll_nil _ _) (by simp [LHSs_Moff])
      (by rw [twoPiI_ex]; exact near_off_ex)
  · exact (C2_edge_equations Mpass shapesEx logEx piBex false).2 Mpass_true 0
      (by simp [Mpass])

/-- Witness for C3: the passing complete-cusp example satisfies both cusp
targets, and `McuspFail` (first cusp equation far from `0`) is rejected. -/
theorem C3_witness :
    passAll (LHSsOf Mpass shapesEx logEx) Mpass.num_tetrahedra
      (cuspTargets (twoPiIOf piBex) Mpass.cusp_complete) ∧
    (verify_logarithmic_gluing_equations_and_positively_oriented_tets
        McuspFail shapesEx logEx piBex false).1 = some false := by
  constructor
  · exact ((C3_cusp_equations Mpass shapesEx logEx piBex false).1 Mpass_true).2
  · have hj0 : 0 < (cuspTargets (twoPiIOf piBex) McuspFail.cusp_complete).length := by
      simp [cuspTargets, McuspFail]
    refine (C3_cusp_equations McuspFail shapesEx logEx piBex false).2 0
      ⟨0, 0, 10, 10⟩ hj0 (by simp [shapesEx]) (by simp [shapesEx, imagPos_shapeEx])
      ?_ (passAll_nil _ _) (by rw [LHSs_McuspFail]; simp [McuspFail]) ?_
    · rw [show List.replicate McuspFail.num_tetrahedra (twoPiIOf piBex)
          = [twoPiIOf piBex] from by simp [McuspFail]]
      refine (passAll_cons _ _ _ _).2 ⟨?_, passAll_nil _ _⟩
      refine passAt_of _ _ _ (Box.mk 0 0 6 6) (by rw [LHSs_McuspFail]; simp) ?_
      rw [twoPiI_ex]
      exact near_tpi_ex
    · rw [show (cuspTargets (twoPiIOf piBex) McuspFail.cusp_complete)[0]
          = Box.zero from by simp [cuspTargets, McuspFail]]
      exact near_cuspFail_ex

/-- Witness for C4 at a concrete valid box pair whose worst-case distance is
within tolerance. -/
theorem C4_witness :
    Box.valid ⟨0, 1 / 100, 0, 1 / 100⟩ ∧ Box.valid Box.zero ∧
    (Box.near ⟨0, 1 / 100, 0, 1 / 100⟩ Box.zero = true ↔
      ∀ a b c d : ℚ, inBox ⟨0, 1 / 100, 0, 1 / 100⟩ a b → inBox Box.zero c d →
        (a - c) * (a - c) + (b - d) * (b - d) < 1 / 100) :=
  ⟨by norm_num [Box.valid], by norm_num [Box.valid, Box.zero],
    C4_tolerance_worst_case _ _ (by norm_num [Box.valid])
      (by norm_num [Box.valid, Box.zero])⟩

/-- Witness for C5 at the one-tetrahedron example and the aligned coefficient
vector `[1, 2, 3]`. -/
theorem C5_witness :
    ((logsOf logEx shapesEx)[3 * 0]? = some (logEx shapeEx) ∧
      (logsOf logEx shapesEx)[3 * 0 + 1]? =
        some (logEx (Box.div Box.one (Box.sub Box.one shapeEx))) ∧
      (logsOf logEx shapesEx)[3 * 0 + 2]? =
        some (logEx (Box.div (Box.sub shapeEx Box.one) shapeEx))) ∧
    lhs [1, 2, 3] (logsOf logEx shapesEx) =
      ∑ i ∈ Finset.range ([(1 : ℤ), 2, 3]).length,
        Box.mul (Box.ofInt ([(1 : ℤ), 2, 3].getD i 0))
          ((logsOf logEx shapesEx).getD i Box.zero) := by
  constructor
  · exact (C5_log_assembly_and_lhs Mpass shapesEx logEx).2.1 0 (by simp [shapesEx])
  · exact (C5_log_assembly_and_lhs Mpass shapesEx logEx).2.2.2 [1, 2, 3]
      (by rw [logsOf_length]; simp [shapesEx])

/-- Witness for C6: the failing example maps to `(false, [])`, the passing
example to `(true, shapes)`, and the non-emptiness iff holds there. -/
theorem C6_witness :
    verify_hyperbolicity Moff logOff piBex false (some shapesEx) =
      some ((false, []),
        (verify_logarithmic_gluing_equations_and_positively_oriented_tets
          Moff shapesEx logOff piBex false).2) ∧
    verify_hyperbolicity Mpass logEx piBex false (some shapesEx) =
      some ((true, shapesEx),
        (verify_logarithmic_gluing_equations_and_positively_oriented_tets
          Mpass shapesEx logEx piBex false).2) ∧
    (shapesEx ≠ [] ↔ true = true) := by
  refine ⟨?_, ?_, ?_⟩
  · exact (C6_orchestration Moff logOff piBex false).2.1 shapesEx Moff_false
  · exact (C6_orchestration Mpass logEx piBex false).2.2.1 shapesEx Mpass_true
  · exact (C6_orchestration Mpass logEx piBex false).2.2.2 (some shapesEx)
      ((true, shapesEx),
        (verify_logarithmic_gluing_equations_and_positively_oriented_tets
          Mpass shapesEx logEx piBex false).2)
      ((C6_orchestration Mpass logEx piBex false).2.2.1 shapesEx Mpass_true)

/-- Witness for the amended C7 at `Mshort`: one equation where two are
required; the verifier cannot answer `true`, and since the one supplied
equation passes, the run ends in the out-of-range fault (`none`). -/
theorem C7_witness :
    (verify_logarithmic_gluing_equations_and_positively_oriented_tets
        Mshort shapesEx logEx piBex false).1 ≠ some true ∧
    (verify_logarithmic_gluing_equations_and_positively_oriented_tets
        Mshort shapesEx logEx piBex false).1 = none := by
  constructor
  · exact (C7_amended_short_list Mshort shapesEx logEx piBex false).1 (by decide)
  · refine (C7_amended_short_list Mshort shapesEx logEx piBex false).2
      (by simp [shapesEx]) (by simp [shapesEx, imagPos_shapeEx]) (by decide) ?_
    rw [show (requiredTargets Mshort piBex).take Mshort.gluing_equations.length
        = [Box.mk 0 0 6 6] from by rw [targets_Mshort]; simp [Mshort]]
    refine (passAll_cons _ _ _ _).2 ⟨?_, passAll_nil _ _⟩
    exact passAt_of _ _ _ _ (by simp [LHSs_Mshort]) near_tpi_ex
